import Mathlib

/-!
# Verification of the tabby web-document indexing pipeline

Shallow embedding of `crates/tabby-scheduler/src/doc/mod.rs`: the
`DocBuilder` implementation of `IndexAttributeBuilder<SourceDocument>`,
which splits a document body into chunks, embeds each chunk, binarizes
the embedding into tokens and emits one `(tokens, attributes)` record
per successfully embedded chunk.

The `Embedding` capability is external; it is modelled as a parameter
`embed : String → Option (List Int)` (`none` = the embed call failed).
Embedding components are modelled as integers: only their sign is ever
inspected by the code under verification.
-/

namespace TabbyDoc

/-- `SourceDocument` input entity, mirroring the Rust struct field for field. -/
structure SourceDocument where
  id : String
  title : String
  link : String
  body : String

/-- `const CHUNK_SIZE: usize = 2048;` -/
def CHUNK_SIZE : Nat := 2048

/-- Modelled from the spec: the field-name constants `doc::fields::TITLE`,
`doc::fields::LINK`, `doc::fields::CHUNK_TEXT` live in `tabby-common`, which is
not part of the provided sources. The spec fixes the vocabulary to the named
fields title, link and chunk text. -/
def doc.fields.TITLE : String := "title"

/-- Modelled from the spec: see `doc.fields.TITLE`. -/
def doc.fields.LINK : String := "link"

/-- Modelled from the spec: see `doc.fields.TITLE`. -/
def doc.fields.CHUNK_TEXT : String := "chunk_text"

/-- `fn format_id(&self, id: &str) -> String { format!("web:{id}") }` -/
def format_id (id : String) : String := "web:" ++ id

/-- `async fn build_id(&self, document: &SourceDocument) -> String` -/
def build_id (document : SourceDocument) : String := format_id document.id

/-- `async fn build_attributes(&self, document: &SourceDocument)`:
the document-level attribute object `{ TITLE: title, LINK: link }`,
modelled as an ordered key/value mapping (all values here are strings). -/
def build_attributes (document : SourceDocument) : List (String × String) :=
  [(doc.fields.TITLE, document.title), (doc.fields.LINK, document.link)]

/-- Modelled from the spec: `index::binarize_embedding` lives in `tabby-common`,
which is not part of the provided sources. The spec: threshold each vector
component against zero, components ≥ 0 map to one symbol class and
components < 0 to the other, preserving component order. -/
def binarize_embedding (embedding : List Int) : List String :=
  embedding.map (fun value => if 0 ≤ value then "1" else "0")

/-- Strip leading and trailing whitespace characters from a character list
(the chunker trims chunk boundaries, see `chunks`). -/
def trimChars (l : List Char) : List Char :=
  ((l.dropWhile Char.isWhitespace).reverse.dropWhile Char.isWhitespace).reverse

/-- Modelled from the spec: the chunker is `TextSplitter::new(CHUNK_SIZE)` from
the external `text_splitter` crate, whose code is not part of the provided
sources. Per the spec it yields a finite ordered sequence of non-empty chunks,
each at most `m` units long, covering the (trimmed) body in order; an empty or
whitespace-only body yields zero chunks, and a short body yields exactly one
chunk equal to the trimmed body. `chunkListFuel` greedily cuts a character
list into maximal pieces of at most `m` characters; the fuel argument makes
the recursion structural and never runs out when initialized to the list
length, as `chunkList` does. -/
def chunkListFuel (m : Nat) : Nat → List Char → List (List Char)
  | _, [] => []
  | 0, l => [l]
  | fuel + 1, c :: rest =>
    (c :: rest.take (m - 1)) :: chunkListFuel m fuel (rest.drop (m - 1))

/-- Modelled from the spec: see `chunkListFuel`. -/
def chunkList (m : Nat) (l : List Char) : List (List Char) :=
  chunkListFuel m l.length l

/-- Modelled from the spec: the chunk sequence for one document body —
the trimmed body cut greedily into pieces of at most `maxSize` characters
(see `chunkList`). -/
def chunks (maxSize : Nat) (body : String) : List String :=
  (chunkList maxSize (trimChars body.toList)).map String.mk

/-- The per-chunk loop body of `build_chunk_attributes`: for each chunk in
order, call `embed` once; on failure (`none`) skip the chunk and continue with
the next one; on success binarize the embedding and emit one
`(tokens, { CHUNK_TEXT: chunk_text })` record. -/
def processChunks (embed : String → Option (List Int)) :
    List String → List (List String × List (String × String))
  | [] => []
  | chunk_text :: rest =>
    match embed chunk_text with
    | some embedding =>
      (binarize_embedding embedding, [(doc.fields.CHUNK_TEXT, chunk_text)]) ::
        processChunks embed rest
    | none => processChunks embed rest

/-- Instrumented variant of `processChunks` that also returns the trace of
arguments passed to `embed`, in call order: the loop awaits exactly one
`embed(chunk_text)` per iteration, whether it succeeds or fails. -/
def processChunksTraced (embed : String → Option (List Int)) :
    List String → List String × List (List String × List (String × String))
  | [] => ([], [])
  | chunk_text :: rest =>
    let r := processChunksTraced embed rest
    match embed chunk_text with
    | some embedding =>
      (chunk_text :: r.1,
        (binarize_embedding embedding, [(doc.fields.CHUNK_TEXT, chunk_text)]) :: r.2)
    | none => (chunk_text :: r.1, r.2)

/-- `fn build_chunk_attributes(&self, document: SourceDocument)`: split the
body into chunks and process them in order (see `processChunks`). The Rust
function returns the records as a lazy stream; the model returns the finite
list of records the stream yields. -/
def build_chunk_attributes (embed : String → Option (List Int))
    (document : SourceDocument) : List (List String × List (String × String)) :=
  processChunks embed (chunks CHUNK_SIZE document.body)

/-- The chunk text stored in one emitted record's attributes. -/
def record_chunk_text (r : List String × List (String × String)) : String :=
  ((r.2.lookup doc.fields.CHUNK_TEXT).getD "")

/-! ## Helper lemmas about the chunker -/

theorem chunkListFuel_flatten (m : Nat) :
    ∀ (fuel : Nat) (l : List Char), (chunkListFuel m fuel l).flatten = l := by
  intro fuel
  induction fuel with
  | zero =>
    intro l
    cases l <;> simp [chunkListFuel]
  | succ fuel ih =>
    intro l
    cases l with
    | nil => simp [chunkListFuel]
    | cons c rest =>
      simp [chunkListFuel, ih, List.take_append_drop]

theorem chunkListFuel_ne_nil (m : Nat) :
    ∀ (fuel : Nat) (l : List Char), ∀ chunk ∈ chunkListFuel m fuel l, chunk ≠ [] := by
  intro fuel
  induction fuel with
  | zero =>
    intro l chunk hmem
    cases l with
    | nil => simp [chunkListFuel] at hmem
    | cons c rest =>
      simp [chunkListFuel] at hmem
      simp [hmem]
  | succ fuel ih =>
    intro l chunk hmem
    cases l with
    | nil => simp [chunkListFuel] at hmem
    | cons c rest =>
      simp [chunkListFuel] at hmem
      rcases hmem with h | h
      · simp [h]
      · exact ih _ _ h

theorem chunkListFuel_length_le (m : Nat) (hm : 1 ≤ m) :
    ∀ (fuel : Nat) (l : List Char), l.length ≤ fuel →
      ∀ chunk ∈ chunkListFuel m fuel l, chunk.length ≤ m := by
  intro fuel
  induction fuel with
  | zero =>
    intro l hl chunk hmem
    have : l = [] := List.length_eq_zero.mp (Nat.le_zero.mp hl)
    subst this
    simp [chunkListFuel] at hmem
  | succ fuel ih =>
    intro l hl chunk hmem
    cases l with
    | nil => simp [chunkListFuel] at hmem
    | cons c rest =>
      simp [chunkListFuel] at hmem
      rcases hmem with h | h
      · subst h
        have htake : (rest.take (m - 1)).length ≤ m - 1 := by
          simp [List.length_take]
        simp only [List.length_cons]
        omega
      · refine ih (rest.drop (m - 1)) ?_ chunk h
        simp only [List.length_drop]
        simp only [List.length_cons] at hl
        omega

theorem chunks_ne_nil (maxSize : Nat) (body : String) :
    ∀ c ∈ chunks maxSize body, c ≠ "" := by
  intro c hc
  simp only [chunks, List.mem_map] at hc
  rcases hc with ⟨cs, hcs, rfl⟩
  have := chunkListFuel_ne_nil maxSize _ _ cs hcs
  intro hcontra
  apply this
  have := congrArg String.data hcontra
  simpa using this

theorem chunks_length_le (maxSize : Nat) (hm : 1 ≤ maxSize) (body : String) :
    ∀ c ∈ chunks maxSize body, c.length ≤ maxSize := by
  intro c hc
  simp only [chunks, List.mem_map] at hc
  rcases hc with ⟨cs, hcs, rfl⟩
  have := chunkListFuel_length_le maxSize hm _ _ (Nat.le_refl _) cs hcs
  simpa [String.length] using this

theorem chunks_flatten (maxSize : Nat) (body : String) :
    ((chunks maxSize body).map String.toList).flatten = trimChars body.toList := by
  simp only [chunks, List.map_map]
  have : String.toList ∘ String.mk = id := by
    funext cs
    rfl
  rw [this, List.map_id]
  exact chunkListFuel_flatten maxSize _ _

theorem trimChars_eq_nil_of_all_whitespace (l : List Char)
    (h : l.all Char.isWhitespace) :
    trimChars l = [] := by
  have h1 : l.dropWhile Char.isWhitespace = [] := by
    rw [List.dropWhile_eq_nil_iff]
    intro x hx
    exact List.all_eq_true.mp h x hx
  simp [trimChars, h1]

/-! ## Helper lemmas about the per-chunk processing loop -/

theorem processChunks_append (embed : String → Option (List Int))
    (l1 l2 : List String) :
    processChunks embed (l1 ++ l2) =
      processChunks embed l1 ++ processChunks embed l2 := by
  induction l1 with
  | nil => simp [processChunks]
  | cons c rest ih =>
    cases h : embed c with
    | none => simp [processChunks, h, ih]
    | some e => simp [processChunks, h, ih]

theorem processChunks_cons_none (embed : String → Option (List Int))
    (c : String) (rest : List String) (h : embed c = none) :
    processChunks embed (c :: rest) = processChunks embed rest := by
  simp [processChunks, h]

theorem processChunks_cons_some (embed : String → Option (List Int))
    (c : String) (rest : List String) (e : List Int) (h : embed c = some e) :
    processChunks embed (c :: rest) =
      (binarize_embedding e, [(doc.fields.CHUNK_TEXT, c)]) ::
        processChunks embed rest := by
  simp [processChunks, h]

theorem processChunksTraced_fst (embed : String → Option (List Int)) :
    ∀ l : List String, (processChunksTraced embed l).1 = l := by
  intro l
  induction l with
  | nil => rfl
  | cons c rest ih =>
    cases h : embed c with
    | none => simp [processChunksTraced, h, ih]
    | some e => simp [processChunksTraced, h, ih]

theorem processChunksTraced_snd (embed : String → Option (List Int)) :
    ∀ l : List String, (processChunksTraced embed l).2 = processChunks embed l := by
  intro l
  induction l with
  | nil => rfl
  | cons c rest ih =>
    cases h : embed c with
    | none => simp [processChunksTraced, processChunks, h, ih]
    | some e => simp [processChunksTraced, processChunks, h, ih]

theorem processChunks_length_le (embed : String → Option (List Int)) :
    ∀ l : List String, (processChunks embed l).length ≤ l.length := by
  intro l
  induction l with
  | nil => simp [processChunks]
  | cons c rest ih =>
    cases h : embed c with
    | none =>
      rw [processChunks_cons_none embed c rest h]
      exact Nat.le_succ_of_le ih
    | some e =>
      rw [processChunks_cons_some embed c rest e h]
      simpa using ih

theorem processChunks_length_eq (embed : String → Option (List Int)) :
    ∀ l : List String, (∀ c ∈ l, (embed c).isSome) →
      (processChunks embed l).length = l.length := by
  intro l
  induction l with
  | nil => simp [processChunks]
  | cons c rest ih =>
    intro hall
    rcases Option.isSome_iff_exists.mp (hall c (List.mem_cons_self c rest)) with ⟨e, he⟩
    rw [processChunks_cons_some embed c rest e he]
    simp only [List.length_cons]
    rw [ih fun x hx => hall x (List.mem_cons_of_mem c hx)]

theorem record_chunk_text_mk (tokens : List String) (c : String) :
    record_chunk_text (tokens, [(doc.fields.CHUNK_TEXT, c)]) = c := by
  simp [record_chunk_text, List.lookup]

theorem processChunks_texts_sublist (embed : String → Option (List Int)) :
    ∀ l : List String,
      ((processChunks embed l).map record_chunk_text).Sublist l := by
  intro l
  induction l with
  | nil => simp [processChunks]
  | cons c rest ih =>
    cases h : embed c with
    | none =>
      rw [processChunks_cons_none embed c rest h]
      exact ih.cons c
    | some e =>
      rw [processChunks_cons_some embed c rest e h]
      simpa [record_chunk_text_mk] using ih.cons₂ c

theorem processChunks_texts_eq (embed : String → Option (List Int)) :
    ∀ l : List String, (∀ c ∈ l, (embed c).isSome) →
      (processChunks embed l).map record_chunk_text = l := by
  intro l
  induction l with
  | nil => simp [processChunks]
  | cons c rest ih =>
    intro hall
    rcases Option.isSome_iff_exists.mp (hall c (List.mem_cons_self c rest)) with ⟨e, he⟩
    rw [processChunks_cons_some embed c rest e he]
    simp only [List.map_cons, record_chunk_text_mk]
    rw [ih fun x hx => hall x (List.mem_cons_of_mem c hx)]

theorem processChunks_mem_shape (embed : String → Option (List Int)) :
    ∀ (l : List String) (r : List String × List (String × String)),
      r ∈ processChunks embed l →
      ∃ c ∈ l, ∃ e, embed c = some e ∧
        r = (binarize_embedding e, [(doc.fields.CHUNK_TEXT, c)]) := by
  intro l
  induction l with
  | nil => simp [processChunks]
  | cons c rest ih =>
    intro r hr
    cases h : embed c with
    | none =>
      rw [processChunks_cons_none embed c rest h] at hr
      rcases ih r hr with ⟨d, hd, e, he, hre⟩
      exact ⟨d, List.mem_cons_of_mem c hd, e, he, hre⟩
    | some e =>
      rw [processChunks_cons_some embed c rest e h] at hr
      rcases List.mem_cons.mp hr with hre | hre
      · exact ⟨c, List.mem_cons_self c rest, e, h, hre⟩
      · rcases ih r hre with ⟨d, hd, f, hf, hrf⟩
        exact ⟨d, List.mem_cons_of_mem c hd, f, hf, hrf⟩

/-! ## The claims -/

/-- C1: if the embed call fails on one chunk of a document, the pipeline emits
no record for that chunk — the document's records are exactly those of the
preceding chunks followed by those of the following chunks, so processing
advances past the failure — and the trace of embed invocations is still
exactly the chunk sequence, one call per chunk in order, so the failed chunk
is never re-embedded. The record stream is a total function of the chunk
list, so the document-level stream terminates normally, never with an error,
despite the failure. -/
theorem C1_embed_failure_skipped (embed : String → Option (List Int))
    (document : SourceDocument) (pre post : List String) (c : String)
    (hsplit : chunks CHUNK_SIZE document.body = pre ++ c :: post)
    (hfail : embed c = none) :
    build_chunk_attributes embed document =
      processChunks embed pre ++ processChunks embed post ∧
    (processChunksTraced embed (chunks CHUNK_SIZE document.body)).1 =
      pre ++ c :: post := by
  constructor
  · rw [build_chunk_attributes, hsplit, processChunks_append,
      processChunks_cons_none embed c post hfail]
  · rw [processChunksTraced_fst, hsplit]

/-- Witness for C1 at a concrete document whose single chunk's embed call
fails: zero records are emitted and embed is invoked exactly once. -/
theorem C1_witness :
    build_chunk_attributes (fun _ => (none : Option (List Int)))
        ⟨"d", "t", "l", "hi"⟩ =
      processChunks (fun _ => none) [] ++ processChunks (fun _ => none) [] ∧
    (processChunksTraced (fun _ => (none : Option (List Int)))
        (chunks CHUNK_SIZE "hi")).1 = [] ++ "hi" :: [] :=
  C1_embed_failure_skipped (fun _ => none) ⟨"d", "t", "l", "hi"⟩ [] [] "hi"
    (by decide) rfl

/-- C2: per document, the number of emitted records is at most the number of
chunks the chunker produces from the body, with equality whenever every embed
call returns successfully. -/
theorem C2_record_count (embed : String → Option (List Int))
    (document : SourceDocument) :
    (build_chunk_attributes embed document).length ≤
      (chunks CHUNK_SIZE document.body).length ∧
    ((∀ c ∈ chunks CHUNK_SIZE document.body, (embed c).isSome) →
      (build_chunk_attributes embed document).length =
        (chunks CHUNK_SIZE document.body).length) :=
  ⟨processChunks_length_le embed _, fun hall => processChunks_length_eq embed _ hall⟩

/-- Witness for C2 at a concrete document and an always-succeeding embedder:
the record count equals the chunk count. -/
theorem C2_witness :
    (build_chunk_attributes (fun _ => some [1]) ⟨"d", "t", "l", "hello world"⟩).length ≤
      (chunks CHUNK_SIZE "hello world").length ∧
    (build_chunk_attributes (fun _ => some [1]) ⟨"d", "t", "l", "hello world"⟩).length =
      (chunks CHUNK_SIZE "hello world").length :=
  ⟨(C2_record_count (fun _ => some [1]) ⟨"d", "t", "l", "hello world"⟩).1,
   (C2_record_count (fun _ => some [1]) ⟨"d", "t", "l", "hello world"⟩).2 (by decide)⟩

/-- C3: the chunk texts carried by the emitted records form a sublist of the
chunker's chunk sequence (order preserved, gaps only at failed embeds), and
when every embed call succeeds they are exactly the chunk sequence in its
original order. -/
theorem C3_order_preserved (embed : String → Option (List Int))
    (document : SourceDocument) :
    ((build_chunk_attributes embed document).map record_chunk_text).Sublist
      (chunks CHUNK_SIZE document.body) ∧
    ((∀ c ∈ chunks CHUNK_SIZE document.body, (embed c).isSome) →
      (build_chunk_attributes embed document).map record_chunk_text =
        chunks CHUNK_SIZE document.body) :=
  ⟨processChunks_texts_sublist embed _, fun hall => processChunks_texts_eq embed _ hall⟩

/-- Witness for C3 at a concrete document and an always-succeeding embedder:
the emitted chunk texts equal the chunk sequence. -/
theorem C3_witness :
    ((build_chunk_attributes (fun _ => some [1]) ⟨"d", "t", "l", "hello world"⟩).map
        record_chunk_text).Sublist (chunks CHUNK_SIZE "hello world") ∧
    (build_chunk_attributes (fun _ => some [1]) ⟨"d", "t", "l", "hello world"⟩).map
        record_chunk_text = chunks CHUNK_SIZE "hello world" :=
  ⟨(C3_order_preserved (fun _ => some [1]) ⟨"d", "t", "l", "hello world"⟩).1,
   (C3_order_preserved (fun _ => some [1]) ⟨"d", "t", "l", "hello world"⟩).2 (by decide)⟩

/-- C4 as stated is false: the chunks do not cover the *entire* body, because
the chunker trims whitespace — for the body `" a"` the single produced chunk
is `"a"`, and the concatenation of all chunks is `"a"`, not `" a"`. -/
theorem C4_counterexample :
    ¬ ((chunks CHUNK_SIZE " a").map String.toList).flatten = (" a").toList := by
  decide

/-- C4 (amended): for every body, the chunker produces a finite ordered
sequence of chunks in which every chunk is non-empty and no chunk exceeds
CHUNK_SIZE = 2048 units, and the chunks cover the entire *trimmed* body in
order (their concatenation is the body with leading and trailing whitespace
removed). -/
theorem C4_chunker_bounds (body : String) :
    (∀ c ∈ chunks CHUNK_SIZE body, c ≠ "" ∧ c.length ≤ CHUNK_SIZE) ∧
    ((chunks CHUNK_SIZE body).map String.toList).flatten = trimChars body.toList := by
  refine ⟨fun c hc => ⟨chunks_ne_nil CHUNK_SIZE body c hc, ?_⟩, chunks_flatten CHUNK_SIZE body⟩
  exact chunks_length_le CHUNK_SIZE (by decide) body c hc

/-- C5: a document whose body is empty or consists only of whitespace yields
zero chunks and hence zero records; the output is the empty sequence, a
normal termination, not an error. -/
theorem C5_empty_body (embed : String → Option (List Int))
    (document : SourceDocument)
    (h : document.body.toList.all Char.isWhitespace) :
    chunks CHUNK_SIZE document.body = [] ∧
    build_chunk_attributes embed document = [] := by
  have htrim : trimChars document.body.toList = [] :=
    trimChars_eq_nil_of_all_whitespace _ h
  have hchunks : chunks CHUNK_SIZE document.body = [] := by
    unfold chunks chunkList
    rw [htrim]
    rfl
  exact ⟨hchunks, by rw [build_chunk_attributes, hchunks]; rfl⟩

/-- Witness for C5 at a concrete whitespace-only document. -/
theorem C5_witness :
    chunks CHUNK_SIZE " \t\n " = [] ∧
    build_chunk_attributes (fun _ => some [1]) ⟨"d", "t", "l", " \t\n "⟩ = [] :=
  C5_empty_body (fun _ => some [1]) ⟨"d", "t", "l", " \t\n "⟩ (by decide)

/-- C6: binarization is a pure, deterministic function of the embedding vector
alone — it takes no other input in the model, and any two applications to
equal vectors yield identical token sequences. -/
theorem C6_binarize_deterministic (e1 e2 : List Int) (h : e1 = e2) :
    binarize_embedding e1 = binarize_embedding e2 := by
  rw [h]

/-- Witness for C6 at a concrete vector, also evaluating the binarization. -/
theorem C6_witness :
    binarize_embedding [3, -1, 0] = binarize_embedding [3, -1, 0] ∧
    binarize_embedding [3, -1, 0] = ["1", "0", "1"] :=
  ⟨C6_binarize_deterministic [3, -1, 0] [3, -1, 0] rfl, by decide⟩

/-- C7: for every document id, the formatted index identifier is the fixed
namespace tag "web:" concatenated with the id; in particular
format_id "abc" = "web:abc". -/
theorem C7_format_id (id : String) :
    format_id id = "web:" ++ id ∧ format_id "abc" = "web:abc" :=
  ⟨rfl, rfl⟩

/-- C8 as stated is false: an emitted record's attributes mapping contains
only the chunk text — at a concrete document with title "Some title" and link
"http://x", the single emitted record's attributes carry no title and no link
binding. -/
theorem C8_counterexample :
    build_chunk_attributes (fun _ => some [1])
        ⟨"d", "Some title", "http://x", "hello"⟩ =
      [(["1"], [(doc.fields.CHUNK_TEXT, "hello")])] ∧
    [(doc.fields.CHUNK_TEXT, "hello")].lookup doc.fields.TITLE = none ∧
    [(doc.fields.CHUNK_TEXT, "hello")].lookup doc.fields.LINK = none := by
  decide

/-- C8 (amended): every emitted record's attributes is exactly the one-field
mapping binding chunk_text to the record's source chunk (and its tokens are
the binarization of that chunk's embedding); the document-level title and
link fields are produced separately by build_attributes, not inside the
per-chunk records. -/
theorem C8_record_attributes (embed : String → Option (List Int))
    (document : SourceDocument) (r : List String × List (String × String))
    (h : r ∈ build_chunk_attributes embed document) :
    (∃ c ∈ chunks CHUNK_SIZE document.body, ∃ e, embed c = some e ∧
       r = (binarize_embedding e, [(doc.fields.CHUNK_TEXT, c)])) ∧
    build_attributes document =
      [(doc.fields.TITLE, document.title), (doc.fields.LINK, document.link)] :=
  ⟨processChunks_mem_shape embed _ r h, rfl⟩

/-- Witness for C8 (amended) at a concrete record of a concrete document. -/
theorem C8_witness :
    (∃ c ∈ chunks CHUNK_SIZE "hello", ∃ e, (fun _ => some [1]) c = some e ∧
       ((["1"], [(doc.fields.CHUNK_TEXT, "hello")]) :
           List String × List (String × String)) =
         (binarize_embedding e, [(doc.fields.CHUNK_TEXT, c)])) ∧
    build_attributes ⟨"d", "Some title", "http://x", "hello"⟩ =
      [(doc.fields.TITLE, "Some title"), (doc.fields.LINK, "http://x")] :=
  C8_record_attributes (fun _ => some [1]) ⟨"d", "Some title", "http://x", "hello"⟩
    (["1"], [(doc.fields.CHUNK_TEXT, "hello")]) (by decide)

/-- C9: when the embed call returns Ok with a zero-component (empty) vector
for some chunk, the pipeline still emits a record for that chunk, and the
record's token sequence is empty — empty embeddings are not guarded against
or skipped. -/
theorem C9_empty_embedding (embed : String → Option (List Int))
    (document : SourceDocument) (pre post : List String) (c : String)
    (hsplit : chunks CHUNK_SIZE document.body = pre ++ c :: post)
    (hembed : embed c = some []) :
    build_chunk_attributes embed document =
      processChunks embed pre ++
        ([], [(doc.fields.CHUNK_TEXT, c)]) :: processChunks embed post := by
  rw [build_chunk_attributes, hsplit, processChunks_append,
    processChunks_cons_some embed c post [] hembed]
  rfl

/-- Witness for C9 at a concrete document whose single chunk's embedding is
the empty vector: exactly one record is emitted and its tokens are empty. -/
theorem C9_witness :
    build_chunk_attributes (fun _ => some []) ⟨"d", "t", "l", "hi"⟩ =
      processChunks (fun _ => some []) [] ++
        ([], [(doc.fields.CHUNK_TEXT, "hi")]) :: processChunks (fun _ => some []) [] :=
  C9_empty_embedding (fun _ => some []) ⟨"d", "t", "l", "hi"⟩ [] [] "hi"
    (by decide) rfl

/-- C10: two source documents receive the same identifier from build_id
exactly when their id fields are equal — the identifier depends on no other
field (title, link and body may differ arbitrarily when the ids agree), and
distinct ids always give distinct identifiers. -/
theorem C10_build_id_inj (d1 d2 : SourceDocument) :
    build_id d1 = build_id d2 ↔ d1.id = d2.id := by
  constructor
  · intro h
    have h2 := congrArg String.data h
    simp only [build_id, format_id, String.data_append] at h2
    exact String.ext (List.append_cancel_left h2)
  · intro h
    simp [build_id, format_id, h]

end TabbyDoc
